import Mathlib

/-!
Verification of the konjure document pipeline writers.

This file gives a shallow embedding of the writer subsystem of the
repository (`pkg/konjure/writer.go` and the command reader of
`pkg/konjure/readers`) and proves/refutes the frozen claims about it.

External collaborators (kyaml, the Go standard library, the OS) are
modelled either as explicit Lean functions translated from their
documented behaviour (string helpers, base64, quoting) or as abstract
parameters (label-selector evaluation, annotation clearing, template
engine, process execution).
-/

namespace Konjure

/-! ## Go string helpers (models of the Go standard library) -/

/-- Byte-wise lexicographic order on strings, as Go's `<` on `string`.
UTF-8 byte order coincides with code-point order, so comparing the
character lists is faithful. -/
def strLtList : List Char → List Char → Bool
  | [], [] => false
  | [], _ :: _ => true
  | _ :: _, [] => false
  | a :: as, b :: bs => if a = b then strLtList as bs else decide (a < b)

def strLt (a b : String) : Bool := strLtList a.data b.data

def isDigitCh (c : Char) : Bool := decide ('0' ≤ c) && decide (c ≤ '9')

/-- Model of Go `strconv.Atoi`: optional sign, at least one digit, all
digits, 64-bit signed range; `none` models a non-nil error. -/
def goAtoi (s : String) : Option Int :=
  match s.data with
  | [] => none
  | cs =>
    let signed : Bool × List Char :=
      match cs with
      | '+' :: rest => (false, rest)
      | '-' :: rest => (true, rest)
      | _ => (false, cs)
    match signed with
    | (neg, ds) =>
      if ds.isEmpty then none
      else if ds.all isDigitCh then
        let n : Nat := ds.foldl (fun a c => a * 10 + (c.toNat - '0'.toNat)) 0
        let v : Int := if neg then -(n : Int) else (n : Int)
        if v < -(2 ^ 63) ∨ v > 2 ^ 63 - 1 then none else some v
      else none

def isSpaceGo (c : Char) : Bool :=
  c = ' ' || c = '\t' || c = '\n' || c = '\r' ||
  c = Char.ofNat 11 || c = Char.ofNat 12

/-- Model of Go `strings.TrimSpace` (restricted to the ASCII whitespace
class, which is all the claims exercise). -/
def goTrimSpace (s : String) : String :=
  String.mk (((s.data.dropWhile isSpaceGo).reverse.dropWhile isSpaceGo).reverse)

/-- Model of Go `strings.TrimPrefix`. -/
def goTrimPrefixStr (pre s : String) : String :=
  if s.data.take pre.data.length = pre.data then String.mk (s.data.drop pre.data.length)
  else s

/-- Model of Go `path/filepath.Base` (slash-separated paths). -/
def goBase (s : String) : String :=
  if s = "" then "."
  else
    let cs := s.data.reverse.dropWhile (· = '/')
    if cs.isEmpty then "/"
    else String.mk ((cs.takeWhile (· ≠ '/')).reverse)

def goToLower (s : String) : String := String.mk (s.data.map Char.toLower)

def goToUpper (s : String) : String := String.mk (s.data.map Char.toUpper)

/-- Model of Go `strings.Contains` for a single-character needle. -/
def containsCh (s : String) (c : Char) : Bool := s.data.contains c

/-- Model of Go `strings.ContainsAny(s, cutset)` for an explicit cutset. -/
def containsAnyOf (s : String) (cut : List Char) : Bool :=
  s.data.any (fun c => cut.contains c)

def startsWithList : List Char → List Char → Bool
  | [], _ => true
  | _ :: _, [] => false
  | a :: as, b :: bs => a = b && startsWithList as bs

def infixOfList (needle : List Char) : List Char → Bool
  | [] => startsWithList needle []
  | c :: rest => startsWithList needle (c :: rest) || infixOfList needle rest

/-- Model of Go `strings.Contains` (substring containment). -/
def containsSub (s sub : String) : Bool := infixOfList sub.data s.data

/-- Index of the first occurrence of a character, as Go
`strings.IndexRune` (character index; all dispatch characters are
ASCII so byte and character indices coincide). -/
def indexOfCh (s : String) (c : Char) : Option Nat := s.data.findIdx? (· = c)

/-- Model of Go `strings.LastIndex(s, ".")`, as an optional index. -/
def lastIndexDot (cs : List Char) : Option Nat :=
  (cs.reverse.findIdx? (· = '.')).map (fun i => cs.length - 1 - i)

/-- Model of Go `strings.Count(s, "\n")`: occurrences of the newline
character. -/
def countNl (s : String) : Nat := s.data.countP (· = '\n')

/-- Model of Go `strings.Split(s, ",")`. -/
def splitCommaAux : List Char → List Char → List String
  | [], acc => [String.mk acc.reverse]
  | c :: rest, acc =>
    if c = ',' then String.mk acc.reverse :: splitCommaAux rest []
    else splitCommaAux rest (c :: acc)

def splitComma (s : String) : List String := splitCommaAux s.data []

/-! ## Base64 (model of Go `encoding/base64.StdEncoding.DecodeString`) -/

def b64Val (c : Char) : Option Nat :=
  if 'A' ≤ c ∧ c ≤ 'Z' then some (c.toNat - 'A'.toNat)
  else if 'a' ≤ c ∧ c ≤ 'z' then some (c.toNat - 'a'.toNat + 26)
  else if '0' ≤ c ∧ c ≤ '9' then some (c.toNat - '0'.toNat + 52)
  else if c = '+' then some 62
  else if c = '/' then some 63
  else none

def b64Err : String := "illegal base64 data"

def b64Chunks : List Char → Except String (List Char)
  | [] => .ok []
  | [a, b, '=', '='] =>
    match b64Val a, b64Val b with
    | some va, some vb => .ok [Char.ofNat ((va * 64 + vb) / 16)]
    | _, _ => .error b64Err
  | [a, b, c, '='] =>
    match b64Val a, b64Val b, b64Val c with
    | some va, some vb, some vc =>
      let n := va * 4096 + vb * 64 + vc
      .ok [Char.ofNat (n / 1024), Char.ofNat (n / 4 % 256)]
    | _, _, _ => .error b64Err
  | a :: b :: c :: d :: rest =>
    match b64Val a, b64Val b, b64Val c, b64Val d with
    | some va, some vb, some vc, some vd =>
      let n := va * 262144 + vb * 4096 + vc * 64 + vd
      match b64Chunks rest with
      | .ok tail => .ok (Char.ofNat (n / 65536) :: Char.ofNat (n / 256 % 256) :: Char.ofNat (n % 256) :: tail)
      | .error e => .error e
    | _, _, _, _ => .error b64Err
  | _ => .error b64Err

/-- Model of Go `base64.StdEncoding.DecodeString`: newlines are
skipped, four-character blocks are decoded, `=` padding is accepted
only at the end, and any other malformed input is an error. -/
def b64Decode (s : String) : Except String String :=
  match b64Chunks (s.data.filter (fun c => c ≠ '\n' ∧ c ≠ '\r')) with
  | .ok bytes => .ok (String.mk bytes)
  | .error e => .error e

/-! ## Go quoting (model of `fmt.Sprintf("%q", s)` for strings) -/

def hexDigit (n : Nat) : Char :=
  if n < 10 then Char.ofNat ('0'.toNat + n) else Char.ofNat ('a'.toNat + n - 10)

def goQuoteChar (c : Char) : List Char :=
  if c = '"' then ['\\', '"']
  else if c = '\\' then ['\\', '\\']
  else if (0x20 ≤ c.toNat ∧ c.toNat ≤ 0x7e) ∨ 0x80 ≤ c.toNat then [c]
  else if c.toNat = 7 then ['\\', 'a']
  else if c.toNat = 8 then ['\\', 'b']
  else if c.toNat = 12 then ['\\', 'f']
  else if c = '\n' then ['\\', 'n']
  else if c = '\r' then ['\\', 'r']
  else if c = '\t' then ['\\', 't']
  else if c.toNat = 11 then ['\\', 'v']
  else ['\\', 'x', hexDigit (c.toNat / 16), hexDigit (c.toNat % 16)]

def goQuote (s : String) : String :=
  String.mk ('"' :: s.data.foldr (fun c acc => goQuoteChar c ++ acc) ['"'])

/-! ## The document model (`yaml.Node` / `yaml.RNode` of kyaml) -/

/-- The node kinds of `gopkg.in/yaml.v3` as used by kyaml. -/
inductive YKind where
  | documentNode
  | sequenceNode
  | mappingNode
  | scalarNode
  | aliasNode
  deriving DecidableEq, Repr

/-- A `yaml.Node`: kind, scalar value, head/foot comments, source line
and ordered children.  An `RNode` is modelled as the `yaml.Node` it
wraps (`RNode.YNode()`). -/
inductive YNode where
  | mk (kind : YKind) (value : String) (headComment : String) (footComment : String)
       (line : Int) (content : List YNode)

def YNode.kind : YNode → YKind
  | .mk k _ _ _ _ _ => k

def YNode.value : YNode → String
  | .mk _ v _ _ _ _ => v

def YNode.headComment : YNode → String
  | .mk _ _ h _ _ _ => h

def YNode.footComment : YNode → String
  | .mk _ _ _ f _ _ => f

def YNode.line : YNode → Int
  | .mk _ _ _ _ l _ => l

def YNode.content : YNode → List YNode
  | .mk _ _ _ _ _ c => c

/-- Replace only the head comment of a node. -/
def YNode.withHead (n : YNode) (h : String) : YNode :=
  .mk n.kind n.value h n.footComment n.line n.content

/-- A scalar node with a given value (blank comments, line 0), the
zero-value `yaml.Node{Kind: ScalarNode, Value: v}`. -/
def scalar (v : String) : YNode := .mk .scalarNode v "" "" 0 []

mutual

/-- `lastLine` from writer.go: the largest line number in the node's
subtree. -/
def lastLine : YNode → Int
  | .mk _ _ _ _ line content => lastLineList line content

def lastLineList : Int → List YNode → Int
  | acc, [] => acc
  | acc, c :: cs => lastLineList (max acc (lastLine c)) cs

end

/-- `wrap` from writer.go: wrap a list of resource nodes into a single
`DocumentNode` holding a mapping with `apiVersion`, `kind` and `items`. -/
def wrap (apiVersion kind : String) (nodes : List YNode) : YNode :=
  let items : YNode := .mk .sequenceNode "" "" "" 0 nodes
  .mk .documentNode "" "" "" 0
    [ .mk .mappingNode "" "" "" 0
        [ scalar "apiVersion", scalar apiVersion,
          scalar "kind", scalar kind,
          scalar "items", items ] ]

/-- Look up the value node following a scalar key in a mapping's
alternating key/value content list (a helper for stating claims). -/
def mappingLookup : List YNode → String → Option YNode
  | k :: v :: rest, key => if k.value = key then some v else mappingLookup rest key
  | _, _ => none

/-- Field of the single mapping inside a `DocumentNode` (a helper for
stating claims about `wrap`). -/
def docField (w : YNode) (key : String) : Option YNode :=
  match w.content with
  | [m] => mappingLookup m.content key
  | _ => none

/-! ## Vertical whitespace restoration (`restoreVerticalWhiteSpace`) -/

/-- One iteration state step of the loop body in
`restoreVerticalWhiteSpace`: walking the direct children with the
running `minLL`, the already-processed previous sibling `p` and the
sibling before it `pp`.  Mirrors the Go loop over `n.Content`. -/
def vwsLoop (nKind : YKind) : Int → Option YNode → Option YNode → List YNode → List YNode
  | _, _, _, [] => []
  | minLL, _, none, c :: rest =>
    -- i = 0: `continue` (and `minLL` is not updated)
    c :: vwsLoop nKind minLL none (some c) rest
  | minLL, pp, some prev, c :: rest =>
    if c.line = prev.line then
      -- still on the same line: `continue`
      c :: vwsLoop nKind minLL (some prev) (some c) rest
    else
      let ll : Int := c.line - 1
      let ll := if c.headComment.length > 0 then ll - (countNl c.headComment + 1) else ll
      let minLL := max minLL (lastLine prev)
      let ll := ll - minLL
      let footComment :=
        if prev.footComment = "" ∧ nKind = .mappingNode then
          match pp with
          | some q => q.footComment
          | none => ""
        else prev.footComment
      let ll := if footComment.length > 0 then ll - (countNl footComment + 2) else ll
      if ll ≤ 0 then
        c :: vwsLoop nKind minLL (some prev) (some c) rest
      else
        let c' := c.withHead (String.mk (List.replicate ll.toNat '\n') ++ c.headComment)
        c' :: vwsLoop nKind minLL (some prev) (some c') rest

/-- `restoreVerticalWhiteSpace` applied to one node: rewrite the head
comments of the node's direct children. -/
def restoreVWSNode (node : YNode) : YNode :=
  .mk node.kind node.value node.headComment node.footComment node.line
    (vwsLoop node.kind node.line none none node.content)

/-- `restoreVerticalWhiteSpace` from writer.go. -/
def restoreVerticalWhiteSpace (nodes : List YNode) : List YNode :=
  nodes.map restoreVWSNode

/-! ## Go `sort.SliceStable`

`GroupWriter.indexNodes` calls `sort.SliceStable(nodes, less)` where
`less` reads the *separate* `ordinal[group]` slice, which is never
permuted alongside `nodes`.  The comparison outcome therefore depends
only on the positions `i, j`, never on the data being moved, so the
whole algorithm is a sequence of swaps of `nodes` computed purely from
the ordinal slice.  We model the exact algorithm of Go's
`sort.stable`: insertion sort on blocks of 20 followed by `symMerge`
rounds.  Loops are written with explicit fuel; the fuel supplied at
each call site covers the Go loop bounds. -/

/-- Swap two positions of a list (out-of-range indices leave the list
unchanged; Go would panic, but all call sites stay in range). -/
def listSwap (l : List α) (i j : Nat) : List α :=
  match l.get? i, l.get? j with
  | some a, some b => (l.set i b).set j a
  | _, _ => l

/-- Inner loop of Go `insertionSort`:
`for j := i; j > a && less(j, j-1); j-- { swap(j, j-1) }`. -/
def insLoop (less : Nat → Nat → Bool) (a : Nat) : Nat → List α → List α
  | 0, ls => ls
  | j + 1, ls =>
    if a < j + 1 ∧ less (j + 1) j then insLoop less a j (listSwap ls (j + 1) j)
    else ls

/-- Go `insertionSort(data, a, b)`: `for i := a + 1; i < b; i++`. -/
def insSortAux (less : Nat → Nat → Bool) (a b : Nat) : Nat → Nat → List α → List α
  | _, 0, ls => ls
  | i, fuel + 1, ls =>
    if i < b then insSortAux less a b (i + 1) fuel (insLoop less a i ls)
    else ls

def insSort (less : Nat → Nat → Bool) (a b : Nat) (ls : List α) : List α :=
  insSortAux less a b (a + 1) b ls

/-- Go `swapRange(data, a, b, n)`. -/
def swapRange (ls : List α) : Nat → Nat → Nat → List α
  | _, _, 0 => ls
  | a, b, n + 1 => swapRange (listSwap ls a b) (a + 1) (b + 1) n

/-- Go `rotate(data, a, m, b)` main loop, on `(i, j)` with fuel. -/
def rotateAux (m : Nat) : Nat → Nat → Nat → List α → List α
  | 0, i, _, ls => swapRange ls (m - i) m i
  | fuel + 1, i, j, ls =>
    if i ≠ j then
      if i > j then rotateAux m fuel (i - j) j (swapRange ls (m - i) m j)
      else rotateAux m fuel i (j - i) (swapRange ls (m - i) (m + j - i) i)
    else swapRange ls (m - i) m i

def rotate (ls : List α) (a m b : Nat) : List α :=
  rotateAux m (b - a + 1) (m - a) (b - m) ls

/-- Binary-search loop shared by the `symMerge` cases:
`for i < j { h := (i+j)/2; if cond h { i = h+1 } else { j = h } }`. -/
def binSearch (cond : Nat → Bool) : Nat → Nat → Nat → Nat
  | 0, i, _ => i
  | fuel + 1, i, j =>
    if i < j then
      let h := (i + j) / 2
      if cond h then binSearch cond fuel (h + 1) j else binSearch cond fuel i h
    else i

/-- `for k := m; k < i; k++ { swap(k, k-1) }`. -/
def slideUp (ls : List α) : Nat → Nat → Nat → List α
  | 0, _, _ => ls
  | fuel + 1, k, i =>
    if k < i then slideUp (listSwap ls k (k - 1)) fuel (k + 1) i else ls

/-- `for k := m; k > i; k-- { swap(k, k-1) }`. -/
def slideDown (ls : List α) : Nat → Nat → Nat → List α
  | 0, _, _ => ls
  | fuel + 1, k, i =>
    if k > i then slideDown (listSwap ls k (k - 1)) fuel (k - 1) i else ls

/-- Go `symMerge(data, a, m, b)` with explicit recursion fuel. -/
def symMerge (less : Nat → Nat → Bool) : Nat → Nat → Nat → Nat → List α → List α
  | 0, _, _, _, ls => ls
  | fuel + 1, a, m, b, ls =>
    if m - a = 1 then
      let i := binSearch (fun h => less h a) (b + 1) m b
      slideUp ls (i + 1) m i
    else if b - m = 1 then
      let i := binSearch (fun h => !less m h) (m + 1) a m
      slideDown ls (m + 1) m i
    else
      let mid := (a + b) / 2
      let n := mid + m
      let sr : Nat × Nat := if m > mid then (n - b, mid) else (a, m)
      let p := n - 1
      let start := binSearch (fun c => !less (p - c) c) (sr.2 + 1) sr.1 sr.2
      let e := n - start
      let ls := if start < m ∧ m < e then rotate ls start m e else ls
      let ls := if a < start ∧ start < mid then symMerge less fuel a start mid ls else ls
      if mid < e ∧ e < b then symMerge less fuel mid e b ls else ls

/-- Inner loop of a merge round of Go `stable`. -/
def mergeInner (less : Nat → Nat → Bool) (bs n : Nat) : Nat → Nat → Nat → List α → List α
  | 0, a, _, ls =>
    if a + bs < n then symMerge less (n + 1) a (a + bs) n ls else ls
  | fuel + 1, a, b, ls =>
    if b ≤ n then mergeInner less bs n fuel b (b + 2 * bs) (symMerge less (n + 1) a (a + bs) b ls)
    else if a + bs < n then symMerge less (n + 1) a (a + bs) n ls
    else ls

/-- Merge rounds of Go `stable`: `for blockSize < n { ...; blockSize *= 2 }`. -/
def mergeRounds (less : Nat → Nat → Bool) (n : Nat) : Nat → Nat → List α → List α
  | 0, _, ls => ls
  | fuel + 1, bs, ls =>
    if bs < n then mergeRounds less n fuel (2 * bs) (mergeInner less bs n (n + 1) 0 (2 * bs) ls)
    else ls

/-- Initial insertion passes of Go `stable`:
`a, b := 0, 20; for b <= n { insertionSort(a, b); a, b = b, b+20 };
insertionSort(a, n)`. -/
def insPasses (less : Nat → Nat → Bool) (n : Nat) : Nat → Nat → Nat → List α → List α
  | 0, a, _, ls => insSort less a n ls
  | fuel + 1, a, b, ls =>
    if b ≤ n then insPasses less n fuel b (b + 20) (insSort less a b ls)
    else insSort less a n ls

/-- Go `stable(data, n)` as called by `sort.SliceStable`. -/
def stableGo (less : Nat → Nat → Bool) (ls : List α) (n : Nat) : List α :=
  mergeRounds less n (n + 1) 20 (insPasses less n (n + 1) 0 20 ls)

/-! ## `GroupWriter.indexNodes` and `GroupWriter.Write` -/

/-- The comparison closure of `indexNodes`: try `strconv.Atoi` on both
ordinals, numeric comparison if both parse, otherwise byte-wise
lexicographic comparison of the ordinal strings.  The indices address
the *fixed* ordinal slice of the group. -/
def cmpOrd (ords : List String) (i j : Nat) : Bool :=
  match goAtoi (ords.getD i ""), goAtoi (ords.getD j "") with
  | some oi, some oj => decide (oi < oj)
  | _, _ => strLt (ords.getD i "") (ords.getD j "")

/-- `sort.SliceStable(nodes, less)` as executed inside `indexNodes`:
the swaps apply to the node list, the comparisons read the unsorted
ordinal slice. -/
def sortGroup (ords : List String) (nodes : List α) : List α :=
  stableGo (cmpOrd ords) nodes nodes.length

/-- Append a node and its ordinal to the group's entry (Go's
`result[g] = append(result[g], n)` / `ordinal[g] = append(..., o)` on
maps with unique keys, in first-insertion order). -/
def addToGroup (g : String) (n : α) (o : String) :
    List (String × List α × List String) → List (String × List α × List String)
  | [] => [(g, [n], [o])]
  | p :: rest =>
    if p.1 = g then (p.1, p.2.1 ++ [n], p.2.2 ++ [o]) :: rest
    else p :: addToGroup g n o rest

/-- First phase of `indexNodes`: classify every node, collecting
per-group node lists and the parallel ordinal lists.  The Go maps
`result` and `ordinal` are modelled as one association list in
first-insertion order; a classification error aborts (returning the
classifier's error for the first failing node). -/
def indexGroupsAux (classify : α → Except String (String × String)) :
    List α → List (String × List α × List String) →
    Except String (List (String × List α × List String))
  | [], acc => .ok acc
  | n :: rest, acc =>
    match classify n with
    | .error e => .error e
    | .ok (g, o) => indexGroupsAux classify rest (addToGroup g n o acc)

def indexGroups (classify : α → Except String (String × String)) (nodes : List α) :
    Except String (List (String × List α × List String)) :=
  indexGroupsAux classify nodes []

/-- `GroupWriter.indexNodes`: group the nodes, then stable-sort each
group's node list with the ordinal-slice comparator. -/
def indexNodes (classify : α → Except String (String × String)) (nodes : List α) :
    Except String (List (String × List α)) :=
  match indexGroups classify nodes with
  | .error e => .error e
  | .ok gs => .ok (gs.map (fun p => (p.1, sortGroup p.2.2 p.2.1)))

/-! ## External collaborators

kyaml and OS functionality used by the writers, bundled as abstract
parameters: node sorting (`kioutil.SortNodes`), annotation clearing
(`yaml.ClearAnnotation` via `RNode.Pipe`), the Go template engine,
the `SHELL` environment variable (empty string when unset), label
selector matching (`RNode.MatchesLabelSelector`), metadata and data
extraction (`RNode.GetMeta` / `RNode.GetDataMap`), the byte writer
(`kio.ByteWriter.Write`) and the default group classifier
(`kioutil.GetFileAnnotations`) and sink factory (`os.Create`). -/

structure Ext where
  sortNodes : List YNode → Except String (List YNode)
  clearAnno : String → YNode → Except String YNode
  parseTmpl : String → Except String Unit
  execTmpl : String → YNode → Except String String
  shellEnv : String
  matchesSel : YNode → String → Except String Bool
  getMetaKind : YNode → Except String String
  getDataMap : YNode → List (String × String)
  byteWrite : List YNode → Except String Unit
  getFileAnnos : YNode → Except String (String × String)
  osCreate : String → Except String Unit

/-- `kioutil.PathAnnotation`. -/
def annoPathKey : String := "config.kubernetes.io/path"

/-- `kioutil.IndexAnnotation`. -/
def annoIndexKey : String := "config.kubernetes.io/index"

/-! ## `GroupWriter.Write` -/

structure GroupWriterCfg where
  keepReaderAnnos : Bool
  clearAnnos : List String
  sortFlag : Bool
  restoreVWS : Bool

/-- The per-group output loop of `GroupWriter.Write`: acquire a sink
for each group (a factory error aborts; no sink means the group is
skipped silently), hand the group's nodes to the byte writer (its
error aborts after the ignored `Close`).  The result collects, per
written group, the nodes handed to its byte writer. -/
def writeGroups (ext : Ext) (factory : String → Except String (Option Unit)) :
    List (String × List YNode) → Except String (List (String × List YNode))
  | [] => .ok []
  | (g, ns) :: rest =>
    match factory g with
    | .error e => .error e
    | .ok none => writeGroups ext factory rest
    | .ok (some _) =>
      match ext.byteWrite ns with
      | .error e => .error e
      | .ok _ =>
        match writeGroups ext factory rest with
        | .error e => .error e
        | .ok out => .ok ((g, ns) :: out)

/-- `GroupWriter.Write`: fill in the default classifier and sink
factory, optionally restore vertical whitespace, index the nodes and
write each group. -/
def groupWrite (ext : Ext) (cfg : GroupWriterCfg)
    (groupNode : Option (YNode → Except String (String × String)))
    (groupWriterF : Option (String → Except String (Option Unit)))
    (nodes : List YNode) : Except String (List (String × List YNode)) :=
  let classify := groupNode.getD ext.getFileAnnos
  let _clearAnnos :=
    match groupNode with
    | none =>
      if cfg.keepReaderAnnos then cfg.clearAnnos
      else cfg.clearAnnos ++ [annoPathKey, annoIndexKey]
    | some _ => cfg.clearAnnos
  let factory := groupWriterF.getD
    (fun name => if name = "" then .ok none else (ext.osCreate name).map some)
  let nodes := if cfg.restoreVWS then restoreVerticalWhiteSpace nodes else nodes
  match indexNodes classify nodes with
  | .error e => .error e
  | .ok indexed => writeGroups ext factory indexed

/-! ## `EnvWriter` -/

structure EnvWriterCfg where
  unsetFlag : Bool
  shell : String
  selector : String

/-- The single line `EnvWriter.printEnvVar` formats for a pair, per
shell (`%q` rendered by `goQuote`). -/
def envVarLine (unsetFlag : Bool) (sh k v : String) : String :=
  if sh = "none" ∨ sh = "" then
    if unsetFlag then k ++ "=\n" else k ++ "=" ++ v ++ "\n"
  else if sh = "fish" then
    if unsetFlag then "set -e " ++ k ++ ";\n"
    else "set -gx " ++ k ++ " " ++ goQuote v ++ ";\n"
  else
    if unsetFlag then "unset " ++ k ++ "\n"
    else "export " ++ k ++ "=" ++ goQuote v ++ "\n"

/-- `EnvWriter.printEnvVar`: emit one line for a pair on the sink,
discarding the sink's error (the Go code assigns both returns of
`fmt.Fprintf` to blank identifiers). -/
def printEnvVar (write : σ → String → σ × Except String Nat) (unsetFlag : Bool)
    (sh k v : String) (s : σ) : σ :=
  (write s (envVarLine unsetFlag sh k v)).1

/-- Inner pair loop of `EnvWriter.Write` for one document: decode each
value (base64 when the document is a `Secret`), return the first
decode error, skip pairs whose key contains `.` or whose decoded value
contains a newline or carriage return, print the rest. -/
def envWritePairs (write : σ → String → σ × Except String Nat) (unsetFlag : Bool)
    (sh : String) (isSecret : Bool) :
    List (String × String) → σ → σ × Except String Unit
  | [], s => (s, .ok ())
  | (k, v) :: rest, s =>
    match (if isSecret then b64Decode v else .ok v) with
    | .error e => (s, .error e)
    | .ok v' =>
      if containsCh k '.' ∨ containsAnyOf v' ['\n', '\r'] then
        envWritePairs write unsetFlag sh isSecret rest s
      else
        envWritePairs write unsetFlag sh isSecret rest
          (printEnvVar write unsetFlag sh k v' s)

/-- The decode selection of `EnvWriter.Write`: base64 exactly when
`GetMeta` succeeds and reports kind `Secret`. -/
def docIsSecret (ext : Ext) (n : YNode) : Bool :=
  match ext.getMetaKind n with
  | .ok k => k = "Secret"
  | .error _ => false

/-- Document loop of `EnvWriter.Write`: a document is skipped exactly
when the selector evaluates without error to a non-match (`err == nil
&& !ok`); the decode function is base64 when `GetMeta` succeeds with
kind `Secret`. -/
def envWriteNodes (ext : Ext) (write : σ → String → σ × Except String Nat)
    (cfg : EnvWriterCfg) (sh : String) :
    List YNode → σ → σ × Except String Unit
  | [], s => (s, .ok ())
  | n :: rest, s =>
    match ext.matchesSel n cfg.selector with
    | .ok false => envWriteNodes ext write cfg sh rest s
    | _ =>
      match envWritePairs write cfg.unsetFlag sh (docIsSecret ext n) (ext.getDataMap n) s with
      | (s', .error e) => (s', .error e)
      | (s', .ok _) => envWriteNodes ext write cfg sh rest s'

/-- `EnvWriter.Write`: derive the shell name (explicit config, else the
base name of the `SHELL` environment variable, lowercased), then walk
the documents. -/
def envWrite (ext : Ext) (write : σ → String → σ × Except String Nat)
    (cfg : EnvWriterCfg) (nodes : List YNode) (s : σ) : σ × Except String Unit :=
  let sh := goToLower cfg.shell
  let sh := if sh = "" then (if ext.shellEnv ≠ "" then goToLower (goBase ext.shellEnv) else sh) else sh
  envWriteNodes ext write cfg sh nodes s

/-- The collecting sink used when the env writer runs under the format
dispatcher: each emitted line becomes one list entry. -/
def collectSink (s : List String) (line : String) : List String × Except String Nat :=
  (s ++ [line], .ok line.length)

/-! ## `JSONWriter` -/

structure JSONWriterCfg where
  keepReaderAnnos : Bool
  clearAnnos : List String
  wrappingKind : String
  wrappingAPIVersion : String
  sortFlag : Bool

/-- Annotation clearing performed per node by `JSONWriter.Write`
before encoding: drop the reader index annotation unless retained,
then every explicitly listed annotation. -/
def clearNodeAnnos (ext : Ext) (keep : Bool) (clearAnnos : List String) (n : YNode) :
    Except String YNode :=
  let first := if keep then .ok n else ext.clearAnno annoIndexKey n
  match first with
  | .error e => .error e
  | .ok n => clearAnnos.foldlM (fun n a => ext.clearAnno a n) n

def clearAllNodes (ext : Ext) (keep : Bool) (clearAnnos : List String) :
    List YNode → Except String (List YNode)
  | [] => .ok []
  | n :: rest =>
    match clearNodeAnnos ext keep clearAnnos n with
    | .error e => .error e
    | .ok n' =>
      match clearAllNodes ext keep clearAnnos rest with
      | .error e => .error e
      | .ok out => .ok (n' :: out)

/-- `JSONWriter.Write`: optional sort, annotation clearing, then one
encoded JSON value per node, or a single wrapping `List` object when a
wrapping kind is configured.  The result is the list of nodes handed
to the JSON encoder, one per emitted JSON value. -/
def jsonWrite (ext : Ext) (cfg : JSONWriterCfg) (nodes : List YNode) :
    Except String (List YNode) :=
  match (if cfg.sortFlag then ext.sortNodes nodes else .ok nodes) with
  | .error e => .error e
  | .ok nodes =>
    match clearAllNodes ext cfg.keepReaderAnnos cfg.clearAnnos nodes with
    | .error e => .error e
    | .ok nodes =>
      if cfg.wrappingKind = "" then .ok nodes
      else .ok [wrap cfg.wrappingAPIVersion cfg.wrappingKind nodes]

/-! ## `TemplateWriter` -/

structure TemplateWriterCfg where
  template : String
  wrappingKind : String
  wrappingAPIVersion : String

/-- `TemplateWriter.Write`: compile the template (a compile failure is
fatal), wrap the sequence into one synthetic document if a wrapping
kind is configured, then evaluate the template once per remaining
node.  The result is the list of rendered strings. -/
def templateWrite (ext : Ext) (cfg : TemplateWriterCfg) (nodes : List YNode) :
    Except String (List String) :=
  match ext.parseTmpl cfg.template with
  | .error e => .error e
  | .ok _ =>
    let nodes :=
      if cfg.wrappingKind ≠ "" then [wrap cfg.wrappingAPIVersion cfg.wrappingKind nodes]
      else nodes
    nodes.mapM (ext.execTmpl cfg.template)

/-! ## The format-dispatching `Writer.Write` -/

structure WriterCfg where
  format : String
  keepReaderAnnos : Bool
  clearAnnos : List String
  sortFlag : Bool
  restoreVWS : Bool

/-- What a dispatched write produced: the nodes handed to the YAML
byte writer, the encoded JSON values, the emitted env lines, or the
rendered template/column strings. -/
inductive WOutput where
  | yamlOut (nodes : List YNode)
  | jsonOut (values : List YNode)
  | envOut (lines : List String)
  | templateOut (rendered : List String)
  | columnsOut (rendered : List String)

/-- The `name`/`template` extraction of `Writer.Write`: lowercase the
format, cut at the first `=` (remembering where the argument starts),
else treat a specifier containing two open braces as `template`. -/
def dispatchFormat (fmtRaw : String) : String × Nat :=
  let format := goToLower fmtRaw
  match indexOfCh format '=' with
  | some i => (String.mk (format.data.take i), i + 1)
  | none =>
    if containsSub format "\x7b\x7b" then ("template", 0)
    else (format, 0)

/-- Column-header/column-template construction of the
`columns`/`custom-columns` branch. -/
def columnsSpec (arg : String) : List String × List String :=
  (splitComma arg).foldl
    (fun acc c =>
      let c := goTrimSpace c
      let tail :=
        match lastIndexDot c.data with
        | some i => String.mk (c.data.drop (i + 1))
        | none => c
      (acc.1 ++ [goToUpper tail],
       acc.2 ++ ["\x7b\x7b ." ++ goTrimPrefixStr "." c ++ " \x7d\x7d"]))
    ([], [])

def joinTab : List String → String
  | [] => ""
  | [s] => s
  | s :: rest => s ++ "\t" ++ joinTab rest

/-- `Writer.Write`: dispatch on the format specifier and run the
chosen concrete writer; an unrecognized name is the fatal
`unknown format` error and nothing is written. -/
def writerWrite (ext : Ext) (cfg : WriterCfg) (nodes : List YNode) :
    Except String WOutput :=
  let fd := dispatchFormat cfg.format
  let format := fd.1
  let templateStart := fd.2
  if format = "yaml" ∨ format = "" then
    let nodes := if cfg.restoreVWS then restoreVerticalWhiteSpace nodes else nodes
    match ext.byteWrite nodes with
    | .error e => .error e
    | .ok _ => .ok (.yamlOut nodes)
  else if format = "json" then
    match jsonWrite ext
        ⟨cfg.keepReaderAnnos, cfg.clearAnnos, "List", "v1", cfg.sortFlag⟩ nodes with
    | .error e => .error e
    | .ok vs => .ok (.jsonOut vs)
  else if format = "ndjson" then
    match jsonWrite ext
        ⟨cfg.keepReaderAnnos, cfg.clearAnnos, "", "", cfg.sortFlag⟩ nodes with
    | .error e => .error e
    | .ok vs => .ok (.jsonOut vs)
  else if format = "env" then
    match envWrite ext collectSink ⟨false, "", ""⟩ nodes [] with
    | (_, .error e) => .error e
    | (lines, .ok _) => .ok (.envOut lines)
  else if format = "name" then
    match templateWrite ext
        ⟨"\x7b\x7b lower .kind \x7d\x7d/\x7b\x7b .metadata.name \x7d\x7d\n", "", ""⟩ nodes with
    | .error e => .error e
    | .ok rs => .ok (.templateOut rs)
  else if format = "template" ∨ format = "go-template" then
    match templateWrite ext
        ⟨String.mk (cfg.format.data.drop templateStart), "", ""⟩ nodes with
    | .error e => .error e
    | .ok rs => .ok (.templateOut rs)
  else if format = "columns" ∨ format = "custom-columns" then
    let hc := columnsSpec (String.mk (cfg.format.data.drop templateStart))
    let tmpl := "\x7b\x7b if .items \x7d\x7d" ++ joinTab hc.1 ++
      "\n\x7b\x7b range .items \x7d\x7d" ++ joinTab hc.2 ++
      "\n\x7b\x7b end \x7d\x7d\x7b\x7b else \x7d\x7dNo results.\n\x7b\x7b end \x7d\x7d"
    match templateWrite ext ⟨tmpl, "List", "v1"⟩ nodes with
    | .error e => .error e
    | .ok rs => .ok (.columnsOut rs)
  else .error ("unknown format: " ++ cfg.format)

/-- The dispatched format names `Writer.Write` recognizes. -/
def recognizedFormats : List String :=
  ["yaml", "", "json", "ndjson", "env", "name", "template", "go-template",
   "columns", "custom-columns"]

/-! ## The command reader (`command.Read` of pkg/konjure/readers) -/

/-- A Go error value as observed by `command.Read`: either an
`exec.ExitError` (whose `Error()` text is `msg` and whose captured
standard error stream is `stderr`), or any other error with text
`msg`. -/
inductive GoErr where
  | exitErr (msg : String) (stderr : String)
  | plain (msg : String)
  deriving DecidableEq, Repr

def GoErr.text : GoErr → String
  | .exitErr m _ => m
  | .plain m => m

/-- `command.Read`: run the command (`output` is the result of
`cmd.Output()`, an external effect), decode its stdout via
`kio.FromBytes` (abstract `fromBytes`), and on an `exec.ExitError`
rebuild the error from the program's base name, the exit error text
and the trimmed stderr stripped of a leading `Error: ` prefix.  Any
other error is returned unchanged. -/
def commandRead (path : String) (output : Except GoErr String)
    (fromBytes : String → Except GoErr (List YNode)) : Except GoErr (List YNode) :=
  match output with
  | .ok out => fromBytes out
  | .error e =>
    match e with
    | .exitErr em stderr =>
      let msg := goTrimSpace stderr
      let msg := goTrimPrefixStr "Error: " msg
      .error (.plain (goBase path ++ " " ++ em ++ ": " ++ msg))
    | .plain _ => .error e

/-! ## Spec-side definitions

The definitions below render the words of the specification (not the
source) so that claims comparing the two can be stated.  They are used
only in theorem statements. -/

/-- The ordinal comparison rule as §3 of the spec words it: numeric
when both ordinals parse as integers, else lexicographic. -/
def ordLess (a b : String) : Bool :=
  match goAtoi a, goAtoi b with
  | some x, some y => decide (x < y)
  | _, _ => strLt a b

/-- Lines consumed by a child's own head comment, per §4.6 of the
spec (and the source): comment newlines plus one when non-empty. -/
def specHeadLines (hc : String) : Int :=
  if hc.length > 0 then (countNl hc : Int) + 1 else 0

/-- Lines consumed by the applicable trailing foot comment, per §4.6:
comment newlines plus two when non-empty. -/
def specFootLines (fc : String) : Int :=
  if fc.length > 0 then (countNl fc : Int) + 2 else 0

/-- The applicable trailing foot comment for the child following
`prevO`: the previous sibling's foot comment, or — for mapping nodes,
where comments attach to the preceding key — the foot comment of the
sibling two positions back. -/
def specFootCmt (kind : YKind) (ppO : Option YNode) (prevO : YNode) : String :=
  if prevO.footComment = "" ∧ kind = .mappingNode then
    match ppO with
    | some q => q.footComment
    | none => ""
  else prevO.footComment

/-- The remaining gap for a child, as the claim words it: the child's
source line minus one, minus the lines of its own head comment, minus
the lines already claimed below the previous siblings' deepest source
line (the running maximum `minLL`), minus the lines of the applicable
trailing foot comment — computed in one closed formula over the
*original* (unrewritten) siblings. -/
def specGap (kind : YKind) (minLL : Int) (ppO prevO : YNode) (c : YNode) : Int :=
  c.line - 1 - specHeadLines c.headComment - max minLL (lastLine prevO) -
    specFootLines (specFootCmt kind (some ppO) prevO)

def specGapNoPP (kind : YKind) (minLL : Int) (prevO : YNode) (c : YNode) : Int :=
  c.line - 1 - specHeadLines c.headComment - max minLL (lastLine prevO) -
    specFootLines (specFootCmt kind none prevO)

/-- The claim-side traversal of a document's direct children: children
at index 0 or on the same line as their predecessor are untouched; any
other child has the closed-formula gap prefixed as blank lines onto
its head comment when positive and is left unmodified otherwise.  All
sibling data is read from the original children. -/
def specLoop (kind : YKind) : Int → Option YNode → Option YNode → List YNode → List YNode
  | _, _, _, [] => []
  | minLL, _, none, c :: rest => c :: specLoop kind minLL none (some c) rest
  | minLL, ppO, some prevO, c :: rest =>
    if c.line = prevO.line then c :: specLoop kind minLL (some prevO) (some c) rest
    else
      let gap : Int :=
        match ppO with
        | some q => specGap kind minLL q prevO c
        | none => specGapNoPP kind minLL prevO c
      let c' :=
        if gap ≤ 0 then c
        else c.withHead (String.mk (List.replicate gap.toNat '\n') ++ c.headComment)
      c' :: specLoop kind (max minLL (lastLine prevO)) (some prevO) (some c) rest

/-- The whitespace restoration of one document as the claim describes
it (only the direct children's head comments are rewritten). -/
def specRestoreNode (n : YNode) : YNode :=
  .mk n.kind n.value n.headComment n.footComment n.line
    (specLoop n.kind n.line none none n.content)

/-- Whether the sink factory returns a sink for a group name. -/
def factoryHasSink (factory : String → Except String (Option Unit)) (g : String) : Bool :=
  match factory g with
  | .ok (some _) => true
  | _ => false

/-- A trivial instantiation of the external collaborators, used by the
concrete witnesses. -/
def extDefault : Ext where
  sortNodes := fun ns => .ok ns
  clearAnno := fun _ n => .ok n
  parseTmpl := fun _ => .ok ()
  execTmpl := fun _ _ => .ok ""
  shellEnv := ""
  matchesSel := fun _ _ => .ok true
  getMetaKind := fun _ => .ok "ConfigMap"
  getDataMap := fun _ => []
  byteWrite := fun _ => .ok ()
  getFileAnnos := fun _ => .ok ("", "")
  osCreate := fun _ => .ok ()

/-! ## Permutation lemmas for the sort machinery -/

theorem cons_set_perm : ∀ (t : List α) (m : Nat) (a b : α),
    t.get? m = some b → (b :: t.set m a).Perm (a :: t)
  | [], m, _, _, h => by simp at h
  | c :: t', 0, a, b, h => by
    have hcb : c = b := by simpa using h
    subst hcb
    exact List.Perm.swap a c t'
  | c :: t', m + 1, a, b, h => by
    have h' : t'.get? m = some b := by simpa using h
    have ih := cons_set_perm t' m a b h'
    show (b :: c :: t'.set m a).Perm (a :: c :: t')
    exact (List.Perm.swap c b _).trans ((ih.cons c).trans (List.Perm.swap a c t'))

theorem set_set_perm : ∀ (l : List α) (i j : Nat) (a b : α),
    l.get? i = some a → l.get? j = some b → ((l.set i b).set j a).Perm l
  | [], i, _, _, _, ha, _ => by simp at ha
  | c :: t, 0, 0, a, b, ha, hb => by
    have h1 : c = a := by simpa using ha
    have h2 : c = b := by simpa using hb
    subst h1; subst h2
    exact .refl _
  | c :: t, 0, j + 1, a, b, ha, hb => by
    have h1 : c = a := by simpa using ha
    have h2 : t.get? j = some b := by simpa using hb
    subst h1
    simpa using cons_set_perm t j c b h2
  | c :: t, i + 1, 0, a, b, ha, hb => by
    have h1 : t.get? i = some a := by simpa using ha
    have h2 : c = b := by simpa using hb
    subst h2
    simpa using cons_set_perm t i c a h1
  | c :: t, i + 1, j + 1, a, b, ha, hb => by
    have h1 : t.get? i = some a := by simpa using ha
    have h2 : t.get? j = some b := by simpa using hb
    simpa using (set_set_perm t i j a b h1 h2).cons c

theorem listSwap_perm (l : List α) (i j : Nat) : (listSwap l i j).Perm l := by
  unfold listSwap
  cases hi : l.get? i with
  | none => exact .refl l
  | some a =>
    cases hj : l.get? j with
    | none => exact .refl l
    | some b => exact set_set_perm l i j a b hi hj

theorem insLoop_perm (less : Nat → Nat → Bool) (a : Nat) :
    ∀ (j : Nat) (ls : List α), (insLoop less a j ls).Perm ls := by
  intro j
  induction j with
  | zero => intro ls; exact .refl ls
  | succ j ih =>
    intro ls
    unfold insLoop
    split
    · exact (ih _).trans (listSwap_perm ls (j + 1) j)
    · exact .refl ls

theorem insSortAux_perm (less : Nat → Nat → Bool) (a b : Nat) :
    ∀ (fuel i : Nat) (ls : List α), (insSortAux less a b i fuel ls).Perm ls := by
  intro fuel
  induction fuel with
  | zero => intro i ls; exact .refl ls
  | succ fuel ih =>
    intro i ls
    unfold insSortAux
    split
    · exact (ih _ _).trans (insLoop_perm less a i ls)
    · exact .refl ls

theorem insSort_perm (less : Nat → Nat → Bool) (a b : Nat) (ls : List α) :
    (insSort less a b ls).Perm ls :=
  insSortAux_perm less a b b (a + 1) ls

theorem swapRange_perm : ∀ (n a b : Nat) (ls : List α), (swapRange ls a b n).Perm ls
  | 0, _, _, ls => .refl ls
  | n + 1, a, b, ls =>
    (swapRange_perm n (a + 1) (b + 1) (listSwap ls a b)).trans (listSwap_perm ls a b)

theorem rotateAux_perm (m : Nat) :
    ∀ (fuel i j : Nat) (ls : List α), (rotateAux m fuel i j ls).Perm ls := by
  intro fuel
  induction fuel with
  | zero => intro i j ls; exact swapRange_perm i (m - i) m ls
  | succ fuel ih =>
    intro i j ls
    unfold rotateAux
    split
    · split
      · exact (ih _ _ _).trans (swapRange_perm j (m - i) m ls)
      · exact (ih _ _ _).trans (swapRange_perm i (m - i) (m + j - i) ls)
    · exact swapRange_perm i (m - i) m ls

theorem rotate_perm (ls : List α) (a m b : Nat) : (rotate ls a m b).Perm ls :=
  rotateAux_perm m (b - a + 1) (m - a) (b - m) ls

theorem slideUp_perm : ∀ (fuel k i : Nat) (ls : List α), (slideUp ls fuel k i).Perm ls
  | 0, _, _, ls => .refl ls
  | fuel + 1, k, i, ls => by
    unfold slideUp
    split
    · exact (slideUp_perm fuel (k + 1) i _).trans (listSwap_perm ls k (k - 1))
    · exact .refl ls

theorem slideDown_perm : ∀ (fuel k i : Nat) (ls : List α), (slideDown ls fuel k i).Perm ls
  | 0, _, _, ls => .refl ls
  | fuel + 1, k, i, ls => by
    unfold slideDown
    split
    · exact (slideDown_perm fuel (k - 1) i _).trans (listSwap_perm ls k (k - 1))
    · exact .refl ls

theorem ite_step_perm {c : Prop} [Decidable c] {f : List α → List α}
    (hf : ∀ x : List α, (f x).Perm x) {x y : List α} (h : x.Perm y) :
    (if c then f x else x).Perm y := by
  split
  · exact (hf x).trans h
  · exact h

theorem symMerge_perm (less : Nat → Nat → Bool) :
    ∀ (fuel a m b : Nat) (ls : List α), (symMerge less fuel a m b ls).Perm ls := by
  intro fuel
  induction fuel with
  | zero => intro a m b ls; exact .refl ls
  | succ fuel ih =>
    intro a m b ls
    unfold symMerge
    split
    · exact slideUp_perm _ _ _ ls
    · split
      · exact slideDown_perm _ _ _ ls
      · exact ite_step_perm (fun x => ih _ _ _ x)
          (ite_step_perm (fun x => ih _ _ _ x)
            (ite_step_perm (fun x => rotate_perm x _ _ _) (List.Perm.refl ls)))

theorem mergeInner_perm (less : Nat → Nat → Bool) (bs n : Nat) :
    ∀ (fuel a b : Nat) (ls : List α), (mergeInner less bs n fuel a b ls).Perm ls := by
  intro fuel
  induction fuel with
  | zero =>
    intro a b ls
    unfold mergeInner
    split
    · exact symMerge_perm less _ _ _ _ ls
    · exact .refl ls
  | succ fuel ih =>
    intro a b ls
    unfold mergeInner
    split
    · exact (ih _ _ _).trans (symMerge_perm less _ _ _ _ ls)
    · split
      · exact symMerge_perm less _ _ _ _ ls
      · exact .refl ls

theorem mergeRounds_perm (less : Nat → Nat → Bool) (n : Nat) :
    ∀ (fuel bs : Nat) (ls : List α), (mergeRounds less n fuel bs ls).Perm ls := by
  intro fuel
  induction fuel with
  | zero => intro bs ls; exact .refl ls
  | succ fuel ih =>
    intro bs ls
    unfold mergeRounds
    split
    · exact (ih _ _).trans (mergeInner_perm less bs n _ _ _ ls)
    · exact .refl ls

theorem insPasses_perm (less : Nat → Nat → Bool) (n : Nat) :
    ∀ (fuel a b : Nat) (ls : List α), (insPasses less n fuel a b ls).Perm ls := by
  intro fuel
  induction fuel with
  | zero => intro a b ls; exact insSort_perm less a n ls
  | succ fuel ih =>
    intro a b ls
    unfold insPasses
    split
    · exact (ih _ _ _).trans (insSort_perm less a b ls)
    · exact insSort_perm less a n ls

theorem stableGo_perm (less : Nat → Nat → Bool) (ls : List α) (n : Nat) :
    (stableGo less ls n).Perm ls :=
  (mergeRounds_perm less n (n + 1) 20 _).trans (insPasses_perm less n (n + 1) 0 20 ls)

theorem sortGroup_perm (ords : List String) (nodes : List α) :
    (sortGroup ords nodes).Perm nodes :=
  stableGo_perm (cmpOrd ords) nodes nodes.length

/-! ## Grouping lemmas -/

theorem addToGroup_flatten_perm (g : String) (n : α) (o : String) :
    ∀ acc : List (String × List α × List String),
      (((addToGroup g n o acc).map fun p => p.2.1).flatten).Perm
        (n :: (acc.map fun p => p.2.1).flatten)
  | [] => by simp [addToGroup]
  | p :: rest => by
    unfold addToGroup
    split
    · show ((p.2.1 ++ [n]) ++ _).Perm _
      rw [List.append_assoc]
      simp only [List.singleton_append]
      exact List.perm_middle
    · show (p.2.1 ++ _).Perm (n :: (p.2.1 ++ _))
      exact ((addToGroup_flatten_perm g n o rest).append_left p.2.1).trans
        List.perm_middle

theorem indexGroupsAux_perm (classify : α → Except String (String × String)) :
    ∀ (nodes : List α) (acc : List (String × List α × List String)),
      (∀ x ∈ nodes, ∃ r, classify x = .ok r) →
      ∃ gs, indexGroupsAux classify nodes acc = .ok gs ∧
        ((gs.map fun p => p.2.1).flatten).Perm
          ((acc.map fun p => p.2.1).flatten ++ nodes)
  | [], acc, _ => ⟨acc, rfl, by simp⟩
  | x :: rest, acc, h => by
    obtain ⟨⟨gg, oo⟩, hx⟩ := h x (List.mem_cons_self x rest)
    obtain ⟨gs, heq, hperm⟩ :=
      indexGroupsAux_perm classify rest (addToGroup gg x oo acc)
        (fun y hy => h y (List.mem_cons_of_mem x hy))
    refine ⟨gs, ?_, ?_⟩
    · unfold indexGroupsAux
      rw [hx]
      exact heq
    · refine hperm.trans ?_
      refine ((addToGroup_flatten_perm gg x oo acc).append_right rest).trans ?_
      exact List.perm_middle.symm

theorem indexGroupsAux_error (classify : α → Except String (String × String))
    (n : α) (post : List α) (e : String) (hn : classify n = .error e) :
    ∀ (pre : List α) (acc : List (String × List α × List String)),
      (∀ x ∈ pre, ∃ r, classify x = .ok r) →
      indexGroupsAux classify (pre ++ n :: post) acc = .error e
  | [], acc, _ => by
    unfold indexGroupsAux
    simp only [List.nil_append]
    rw [hn]
  | x :: rest, acc, h => by
    obtain ⟨⟨gg, oo⟩, hx⟩ := h x (List.mem_cons_self x rest)
    show indexGroupsAux classify (x :: (rest ++ n :: post)) acc = .error e
    unfold indexGroupsAux
    rw [hx]
    exact indexGroupsAux_error classify n post e hn rest _
      (fun y hy => h y (List.mem_cons_of_mem x hy))

theorem flatten_map_perm_pointwise (f g : β → List α) :
    ∀ l : List β, (∀ x ∈ l, (f x).Perm (g x)) →
      ((l.map f).flatten).Perm ((l.map g).flatten)
  | [], _ => .refl _
  | x :: rest, h => by
    simp only [List.map_cons, List.flatten_cons]
    exact (h x (List.mem_cons_self x rest)).append
      (flatten_map_perm_pointwise f g rest fun y hy => h y (List.mem_cons_of_mem x hy))

theorem writeGroups_ok (ext : Ext) (factory : String → Except String (Option Unit))
    (hb : ∀ ns, ext.byteWrite ns = .ok ())
    (hf : ∀ g, ∃ r, factory g = .ok r) :
    ∀ gs : List (String × List YNode),
      writeGroups ext factory gs = .ok (gs.filter fun p => factoryHasSink factory p.1)
  | [] => rfl
  | (g, ns) :: rest => by
    obtain ⟨r, hr⟩ := hf g
    have ih := writeGroups_ok ext factory hb hf rest
    have hhs : factoryHasSink factory g = (if r.isSome then true else false) := by
      unfold factoryHasSink
      rw [hr]
      cases r <;> rfl
    unfold writeGroups
    rw [hr]
    cases r with
    | none =>
      rw [ih]
      simp only [List.filter_cons]
      rw [hhs]
      rfl
    | some u =>
      rw [hb ns, ih]
      simp only [List.filter_cons]
      rw [hhs]
      rfl

/-! ## Claim C1: grouping conservation -/

/-- C1.  For every input sequence and every classifier that succeeds
on all of its documents (with every sink acquisition and byte write
succeeding), `GroupWriter.Write` partitions the sequence: `indexNodes`
yields groups whose concatenation is a permutation of the input (each
document in exactly one group, no duplication, no drop); the write
succeeds and outputs exactly the groups for which the sink factory
returns a sink; and the written groups together with the silently
discarded ones still carry the full input set. -/
theorem c1_grouping_conservation (ext : Ext) (cfg : GroupWriterCfg)
    (classify : YNode → Except String (String × String))
    (factory : String → Except String (Option Unit)) (nodes : List YNode)
    (hrv : cfg.restoreVWS = false)
    (hc : ∀ x ∈ nodes, ∃ r, classify x = .ok r)
    (hf : ∀ g, ∃ r, factory g = .ok r)
    (hb : ∀ ns, ext.byteWrite ns = .ok ()) :
    ∃ gs : List (String × List YNode),
      indexNodes classify nodes = .ok gs ∧
      ((gs.map fun p => p.2).flatten).Perm nodes ∧
      groupWrite ext cfg (some classify) (some factory) nodes =
        .ok (gs.filter fun p => factoryHasSink factory p.1) ∧
      (((gs.filter fun p => factoryHasSink factory p.1).map fun p => p.2).flatten ++
        ((gs.filter fun p => !factoryHasSink factory p.1).map fun p => p.2).flatten).Perm
        nodes := by
  obtain ⟨gs0, h0, hperm0⟩ := indexGroupsAux_perm classify nodes [] hc
  have hperm0' : ((gs0.map fun p => p.2.1).flatten).Perm nodes := by
    simpa using hperm0
  refine ⟨gs0.map fun p => (p.1, sortGroup p.2.2 p.2.1), ?_, ?_, ?_, ?_⟩
  case _ =>
    unfold indexNodes indexGroups
    rw [h0]
  case _ =>
    show (((gs0.map fun p => (p.1, sortGroup p.2.2 p.2.1)).map fun p => p.2).flatten).Perm nodes
    rw [List.map_map]
    refine List.Perm.trans ?_ hperm0'
    exact flatten_map_perm_pointwise _ _ gs0 fun x _ => sortGroup_perm x.2.2 x.2.1
  case _ =>
    have hidx : indexNodes classify nodes =
        .ok (gs0.map fun p => (p.1, sortGroup p.2.2 p.2.1)) := by
      unfold indexNodes indexGroups
      rw [h0]
    unfold groupWrite
    rw [hrv]
    simp only [Option.getD_some, if_neg Bool.false_ne_true, ite_false]
    rw [hidx]
    exact writeGroups_ok ext factory hb hf _
  case _ =>
    have hpart := List.filter_append_perm
      (fun p => factoryHasSink factory p.1)
      (gs0.map fun p => (p.1, sortGroup p.2.2 p.2.1))
    have h1 := (hpart.map fun p => p.2).flatten
    rw [List.map_append, List.flatten_append] at h1
    refine h1.trans ?_
    show (((gs0.map fun p => (p.1, sortGroup p.2.2 p.2.1)).map fun p => p.2).flatten).Perm nodes
    rw [List.map_map]
    refine List.Perm.trans ?_ hperm0'
    exact flatten_map_perm_pointwise _ _ gs0 fun x _ => sortGroup_perm x.2.2 x.2.1

def c1WitNodes : List YNode := [scalar "a", scalar "b", scalar "c"]

def c1WitClassify : YNode → Except String (String × String) :=
  fun n => .ok (if n.value = "c" then "" else "g", n.value)

def c1WitFactory : String → Except String (Option Unit) :=
  fun g => .ok (if g = "" then none else some ())

theorem c1_grouping_conservation_witness :
    (∀ x ∈ c1WitNodes, ∃ r, c1WitClassify x = .ok r) ∧
    (∀ g, ∃ r, c1WitFactory g = .ok r) ∧
    ∃ gs : List (String × List YNode),
      indexNodes c1WitClassify c1WitNodes = .ok gs ∧
      ((gs.map fun p => p.2).flatten).Perm c1WitNodes ∧
      groupWrite extDefault ⟨false, [], false, false⟩ (some c1WitClassify)
          (some c1WitFactory) c1WitNodes =
        .ok (gs.filter fun p => factoryHasSink c1WitFactory p.1) ∧
      (((gs.filter fun p => factoryHasSink c1WitFactory p.1).map fun p => p.2).flatten ++
        ((gs.filter fun p => !factoryHasSink c1WitFactory p.1).map fun p => p.2).flatten).Perm
        c1WitNodes :=
  ⟨fun _ _ => ⟨_, rfl⟩, fun _ => ⟨_, rfl⟩,
    c1_grouping_conservation extDefault ⟨false, [], false, false⟩ c1WitClassify
      c1WitFactory c1WitNodes rfl (fun _ _ => ⟨_, rfl⟩) (fun _ => ⟨_, rfl⟩)
      (fun _ => rfl)⟩

/-! ## Claim C7: classifier error fail-fast -/

/-- C7.  If the classifier fails on any document (here: the first
failing one, matching the Go loop which returns the first error),
`GroupWriter.Write` returns that error for *every* possible sink
factory — in particular no sink is ever acquired and no group output
is produced: the result is the bare error. -/
theorem c7_classifier_fail_fast (ext : Ext) (cfg : GroupWriterCfg)
    (classify : YNode → Except String (String × String))
    (pre post : List YNode) (n : YNode) (e : String)
    (hrv : cfg.restoreVWS = false)
    (hpre : ∀ x ∈ pre, ∃ r, classify x = .ok r)
    (hn : classify n = .error e) :
    ∀ factory, groupWrite ext cfg (some classify) (some factory) (pre ++ n :: post) =
      .error e := by
  intro factory
  have hidx : indexNodes classify (pre ++ n :: post) = .error e := by
    unfold indexNodes indexGroups
    rw [indexGroupsAux_error classify n post e hn pre [] hpre]
  unfold groupWrite
  rw [hrv]
  simp only [Option.getD_some, if_neg Bool.false_ne_true, ite_false]
  rw [hidx]

def c7WitClassify : YNode → Except String (String × String) :=
  fun n => if n.value = "bad" then .error "no group for document" else .ok ("g", "0")

theorem c7_classifier_fail_fast_witness :
    (∀ x ∈ [scalar "a"], ∃ r, c7WitClassify x = .ok r) ∧
    (c7WitClassify (scalar "bad") = .error "no group for document") ∧
    groupWrite extDefault ⟨false, [], false, false⟩ (some c7WitClassify)
        (some c1WitFactory) ([scalar "a"] ++ scalar "bad" :: [scalar "b"]) =
      .error "no group for document" := by
  refine ⟨?_, rfl, ?_⟩
  · intro x hx
    simp only [List.mem_singleton] at hx
    subst hx
    exact ⟨("g", "0"), rfl⟩
  · exact c7_classifier_fail_fast extDefault ⟨false, [], false, false⟩ c7WitClassify
      [scalar "a"] [scalar "b"] (scalar "bad") "no group for document" rfl
      (fun x hx => by
        simp only [List.mem_singleton] at hx
        subst hx
        exact ⟨("g", "0"), rfl⟩) rfl c1WitFactory

/-! ## Claim C2: the ordinal sort -/

def c2Classify : YNode → Except String (String × String) :=
  fun n => .ok ("g", if n.value = "a" then "2" else if n.value = "b" then "3" else "1")

def c2Nodes : List YNode := [scalar "a", scalar "b", scalar "c"]

/-- C2 (code bug).  With ordinals `"2", "3", "1"` assigned to the
documents `a, b, c` of one group, `indexNodes` emits the group in the
order `a, c, b`: document `c` (ordinal `"1"`) lands *after* document
`a` (ordinal `"2"`) although the ordinal rule orders `"1"` before
`"2"` (last two conjuncts) — the output is not sorted by ordinal, so
the claimed stable sort (which would give `c, a, b`) does not happen.
The cause: `sort.SliceStable` permutes only `nodes`, while the `less`
closure keeps reading the never-reordered parallel `ordinal[group]`
slice. -/
theorem c2_ordinal_sort_bug :
    ∃ gs, indexNodes c2Classify c2Nodes = .ok gs ∧
      gs.map (fun p => (p.1, p.2.map YNode.value)) = [("g", ["a", "c", "b"])] ∧
      ordLess "1" "2" = true ∧ ordLess "2" "3" = true := by
  exact ⟨_, rfl, rfl, rfl, rfl⟩

/-! ## Env writer lemmas -/

/-- The pair that survives filtering contributes exactly one line;
with the collecting sink the pair loop appends, in data order, the
formatted line of every surviving pair. -/
theorem envWritePairs_collect (sh : String) (isSec : Bool) :
    ∀ (pairs : List (String × String)) (s : List String),
      (∀ p ∈ pairs, ∃ v', (if isSec then b64Decode p.2 else .ok p.2) = .ok v') →
      envWritePairs collectSink false sh isSec pairs s =
        (s ++ pairs.filterMap (fun p =>
          match (if isSec then b64Decode p.2 else .ok p.2) with
          | .error _ => none
          | .ok v' =>
            if containsCh p.1 '.' ∨ containsAnyOf v' ['\n', '\r'] then none
            else some (envVarLine false sh p.1 v')), .ok ())
  | [], s, _ => by simp [envWritePairs]
  | (k, v) :: rest, s, h => by
    obtain ⟨v', hv0⟩ := h (k, v) (List.mem_cons_self _ rest)
    have hv : (if isSec then b64Decode v else .ok v) = .ok v' := hv0
    have ih := envWritePairs_collect sh isSec rest
    unfold envWritePairs
    rw [hv]
    simp only [List.filterMap_cons, hv]
    by_cases hc : containsCh k '.' = true ∨ containsAnyOf v' ['\n', '\r'] = true
    · simp only [if_pos hc]
      rw [ih s (fun p hp => h p (List.mem_cons_of_mem _ hp))]
    · simp only [if_neg hc]
      rw [show printEnvVar collectSink false sh k v' s = s ++ [envVarLine false sh k v'] from rfl]
      rw [ih _ (fun p hp => h p (List.mem_cons_of_mem _ hp))]
      rw [List.append_assoc]
      rfl

theorem envWritePairs_ok {σ : Type} (write : σ → String → σ × Except String Nat)
    (unsetFlag : Bool) (sh : String) (isSec : Bool) :
    ∀ (pairs : List (String × String)) (s : σ),
      (∀ p ∈ pairs, ∃ v', (if isSec then b64Decode p.2 else .ok p.2) = .ok v') →
      (envWritePairs write unsetFlag sh isSec pairs s).2 = .ok ()
  | [], _, _ => rfl
  | (k, v) :: rest, s, h => by
    obtain ⟨v', hv0⟩ := h (k, v) (List.mem_cons_self _ rest)
    have hv : (if isSec then b64Decode v else .ok v) = .ok v' := hv0
    unfold envWritePairs
    rw [hv]
    show (if containsCh k '.' = true ∨ containsAnyOf v' ['\n', '\r'] = true then
        envWritePairs write unsetFlag sh isSec rest s
      else envWritePairs write unsetFlag sh isSec rest
        (printEnvVar write unsetFlag sh k v' s)).2 = .ok ()
    split
    · exact envWritePairs_ok write unsetFlag sh isSec rest s
        (fun p hp => h p (List.mem_cons_of_mem _ hp))
    · exact envWritePairs_ok write unsetFlag sh isSec rest _
        (fun p hp => h p (List.mem_cons_of_mem _ hp))

/-! ## Claim C3: the label selector -/

def c3Ext : Ext :=
  { extDefault with
      matchesSel := fun _ _ => .error "invalid selector"
      getDataMap := fun _ => [("FOO", "bar")] }

/-- C3 (counterexample).  A document whose selector evaluation fails
is *not* skipped: with a selector evaluator that always errors, the
env writer still emits the document's pair `FOO=bar` — the claim that
an evaluation error is treated as a non-match and the document
skipped entirely is false on the code (`err == nil && !ok` only skips
on an error-free non-match). -/
theorem c3_selector_error_counterexample :
    c3Ext.matchesSel (scalar "doc") "x=(" = .error "invalid selector" ∧
    envWrite c3Ext collectSink ⟨false, "", "x=("⟩ [scalar "doc"] [] =
      (["FOO=bar\n"], .ok ()) ∧
    (["FOO=bar\n"] : List String) ≠ [] := by
  refine ⟨rfl, rfl, by simp⟩

/-- C3 (amended).  An error-free non-match skips the document; a
selector evaluation *error* is treated as a match — the document is
processed identically to an explicitly matching one (the second and
third conjuncts have the same right-hand side) — and the selector
outcome itself never makes the write fail. -/
theorem c3_selector_amended {σ : Type} (ext : Ext)
    (write : σ → String → σ × Except String Nat) (cfg : EnvWriterCfg) (sh : String)
    (n : YNode) (rest : List YNode) (s : σ) :
    (ext.matchesSel n cfg.selector = .ok false →
      envWriteNodes ext write cfg sh (n :: rest) s = envWriteNodes ext write cfg sh rest s) ∧
    (∀ e, ext.matchesSel n cfg.selector = .error e →
      envWriteNodes ext write cfg sh (n :: rest) s =
        match envWritePairs write cfg.unsetFlag sh (docIsSecret ext n) (ext.getDataMap n) s with
        | (s', .error e') => (s', .error e')
        | (s', .ok _) => envWriteNodes ext write cfg sh rest s') ∧
    (ext.matchesSel n cfg.selector = .ok true →
      envWriteNodes ext write cfg sh (n :: rest) s =
        match envWritePairs write cfg.unsetFlag sh (docIsSecret ext n) (ext.getDataMap n) s with
        | (s', .error e') => (s', .error e')
        | (s', .ok _) => envWriteNodes ext write cfg sh rest s') := by
  refine ⟨fun h => ?_, fun e h => ?_, fun h => ?_⟩ <;>
    simp only [envWriteNodes, h] <;> rfl

theorem c3_selector_amended_witness :
    c3Ext.matchesSel (scalar "doc") "x=(" = .error "invalid selector" ∧
    envWriteNodes c3Ext collectSink ⟨false, "", "x=("⟩ "" [scalar "doc"] [] =
      (["FOO=bar\n"], .ok ()) :=
  ⟨rfl,
    (c3_selector_amended c3Ext collectSink ⟨false, "", "x=("⟩ "" (scalar "doc") [] []).2.1
      "invalid selector" rfl⟩

/-! ## Claim C4: name/value extraction and shell formats -/

/-- C4.  For a document that matches the (empty) selector and whose
values all decode — base64 exactly when the document's kind is
`Secret`, identity otherwise — the env writer emits, in data order,
exactly one line per surviving pair and no line for a pair whose key
contains `.` or whose decoded value contains a newline or carriage
return; under the `none` shell the line is `KEY=value`, under `bash`
it is `export KEY="value"` (Go `%q` quoting). -/
theorem c4_env_extraction (ext : Ext) (n : YNode)
    (hsel : ext.matchesSel n "" = .ok true)
    (hdec : ∀ p ∈ ext.getDataMap n,
      ∃ v', (if docIsSecret ext n then b64Decode p.2 else .ok p.2) = .ok v') :
    envWrite ext collectSink ⟨false, "none", ""⟩ [n] [] =
      ((ext.getDataMap n).filterMap (fun p =>
        match (if docIsSecret ext n then b64Decode p.2 else .ok p.2) with
        | .error _ => none
        | .ok v' =>
          if containsCh p.1 '.' ∨ containsAnyOf v' ['\n', '\r'] then none
          else some (envVarLine false "none" p.1 v')), .ok ()) ∧
    envWrite ext collectSink ⟨false, "bash", ""⟩ [n] [] =
      ((ext.getDataMap n).filterMap (fun p =>
        match (if docIsSecret ext n then b64Decode p.2 else .ok p.2) with
        | .error _ => none
        | .ok v' =>
          if containsCh p.1 '.' ∨ containsAnyOf v' ['\n', '\r'] then none
          else some (envVarLine false "bash" p.1 v')), .ok ()) ∧
    (∀ k v, envVarLine false "none" k v = k ++ "=" ++ v ++ "\n") ∧
    (∀ k v, envVarLine false "bash" k v = "export " ++ k ++ "=" ++ goQuote v ++ "\n") := by
  have main : ∀ sh : String,
      envWriteNodes ext collectSink ⟨false, sh, ""⟩ sh [n] [] =
        ((ext.getDataMap n).filterMap (fun p =>
          match (if docIsSecret ext n then b64Decode p.2 else .ok p.2) with
          | .error _ => none
          | .ok v' =>
            if containsCh p.1 '.' ∨ containsAnyOf v' ['\n', '\r'] then none
            else some (envVarLine false sh p.1 v')), .ok ()) := by
    intro sh
    unfold envWriteNodes
    rw [hsel]
    rw [envWritePairs_collect sh (docIsSecret ext n) (ext.getDataMap n) [] hdec]
    rfl
  exact ⟨main "none", main "bash", fun _ _ => rfl, fun _ _ => rfl⟩

def c4Ext : Ext :=
  { extDefault with
      getMetaKind := fun _ => .ok "Secret"
      getDataMap := fun _ => [("FOO", "dGVzdA=="), ("app.config", "eA==")] }

theorem c4_env_extraction_witness :
    c4Ext.matchesSel (scalar "doc") "" = .ok true ∧
    (∀ p ∈ c4Ext.getDataMap (scalar "doc"),
      ∃ v', (if docIsSecret c4Ext (scalar "doc") then b64Decode p.2 else .ok p.2) = .ok v') ∧
    envWrite c4Ext collectSink ⟨false, "none", ""⟩ [scalar "doc"] [] =
      (["FOO=test\n"], .ok ()) ∧
    envWrite c4Ext collectSink ⟨false, "bash", ""⟩ [scalar "doc"] [] =
      (["export FOO=\"test\"\n"], .ok ()) := by
  have hdec : ∀ p ∈ c4Ext.getDataMap (scalar "doc"),
      ∃ v', (if docIsSecret c4Ext (scalar "doc") then b64Decode p.2 else .ok p.2) = .ok v' := by
    intro p hp
    simp only [c4Ext, extDefault, List.mem_cons, List.mem_singleton] at hp
    rcases hp with rfl | rfl | h
    · exact ⟨"test", rfl⟩
    · exact ⟨"x", rfl⟩
    · cases h
  have h := c4_env_extraction c4Ext (scalar "doc") rfl hdec
  exact ⟨rfl, hdec, h.1, h.2.1⟩

/-! ## Claim C10: sink failures are discarded -/

/-- C10.  The env writer never reports sink failures: for *every*
sink implementation (including one failing on each write) the write
returns success whenever every value of every processed (non-skipped)
document decodes; an error can only originate from base64-decoding a
Secret's data value. -/
theorem c10_sink_failures_ignored {σ : Type} (write : σ → String → σ × Except String Nat)
    (ext : Ext) (cfg : EnvWriterCfg) :
    ∀ (nodes : List YNode) (s : σ),
      (∀ n ∈ nodes, ext.matchesSel n cfg.selector ≠ .ok false →
        ∀ p ∈ ext.getDataMap n,
          ∃ v', (if docIsSecret ext n then b64Decode p.2 else .ok p.2) = .ok v') →
      (envWrite ext write cfg nodes s).2 = .ok () := by
  have inner : ∀ sh (nodes : List YNode) (s : σ),
      (∀ n ∈ nodes, ext.matchesSel n cfg.selector ≠ .ok false →
        ∀ p ∈ ext.getDataMap n,
          ∃ v', (if docIsSecret ext n then b64Decode p.2 else .ok p.2) = .ok v') →
      (envWriteNodes ext write cfg sh nodes s).2 = .ok () := by
    intro sh nodes
    induction nodes with
    | nil => intro s _; rfl
    | cons n rest ih =>
      intro s h
      unfold envWriteNodes
      cases hm : ext.matchesSel n cfg.selector with
      | error e =>
        have hpairs := envWritePairs_ok write cfg.unsetFlag sh (docIsSecret ext n)
          (ext.getDataMap n) s
          (h n (List.mem_cons_self n rest) (by rw [hm]; intro hc; cases hc))
        obtain ⟨s', hs'⟩ : ∃ s',
            envWritePairs write cfg.unsetFlag sh (docIsSecret ext n) (ext.getDataMap n) s =
              (s', .ok ()) := by
          refine ⟨(envWritePairs write cfg.unsetFlag sh (docIsSecret ext n)
            (ext.getDataMap n) s).1, ?_⟩
          rw [← hpairs]
        rw [hs']
        exact ih s' (fun m hms => h m (List.mem_cons_of_mem n hms))
      | ok b =>
        cases b with
        | false => exact ih s (fun m hms => h m (List.mem_cons_of_mem n hms))
        | true =>
          have hpairs := envWritePairs_ok write cfg.unsetFlag sh (docIsSecret ext n)
            (ext.getDataMap n) s
            (h n (List.mem_cons_self n rest) (by rw [hm]; intro hc; cases hc))
          obtain ⟨s', hs'⟩ : ∃ s',
              envWritePairs write cfg.unsetFlag sh (docIsSecret ext n) (ext.getDataMap n) s =
                (s', .ok ()) := by
            refine ⟨(envWritePairs write cfg.unsetFlag sh (docIsSecret ext n)
              (ext.getDataMap n) s).1, ?_⟩
            rw [← hpairs]
          rw [hs']
          exact ih s' (fun m hms => h m (List.mem_cons_of_mem n hms))
  intro nodes s h
  exact inner _ nodes s h

def c10FailSink : Unit → String → Unit × Except String Nat :=
  fun _ _ => ((), .error "disk full")

theorem c10_sink_failures_ignored_witness :
    (∀ n ∈ [scalar "doc"], c4Ext.matchesSel n "" ≠ .ok false →
      ∀ p ∈ c4Ext.getDataMap n,
        ∃ v', (if docIsSecret c4Ext n then b64Decode p.2 else .ok p.2) = .ok v') ∧
    (envWrite c4Ext c10FailSink ⟨false, "none", ""⟩ [scalar "doc"] ()).2 = .ok () := by
  have h : ∀ n ∈ [scalar "doc"], c4Ext.matchesSel n "" ≠ .ok false →
      ∀ p ∈ c4Ext.getDataMap n,
        ∃ v', (if docIsSecret c4Ext n then b64Decode p.2 else .ok p.2) = .ok v' := by
    intro n hn _ p hp
    simp only [c4Ext, extDefault, List.mem_cons, List.mem_singleton] at hp
    simp only [List.mem_singleton] at hn
    subst hn
    rcases hp with rfl | rfl | hc
    · exact ⟨"test", rfl⟩
    · exact ⟨"x", rfl⟩
    · cases hc
  exact ⟨h, c10_sink_failures_ignored c10FailSink c4Ext ⟨false, "none", ""⟩ [scalar "doc"] () h⟩

/-! ## Claim C5: JSON wrapping -/

theorem clearAllNodes_length (ext : Ext) (keep : Bool) (clears : List String) :
    ∀ (nodes cleared : List YNode),
      clearAllNodes ext keep clears nodes = .ok cleared → cleared.length = nodes.length
  | [], cleared, h => by
    simp only [clearAllNodes] at h
    cases h
    rfl
  | n :: rest, cleared, h => by
    unfold clearAllNodes at h
    cases hn : clearNodeAnnos ext keep clears n with
    | error e => rw [hn] at h; cases h
    | ok n' =>
      rw [hn] at h
      cases hr : clearAllNodes ext keep clears rest with
      | error e => rw [hr] at h; cases h
      | ok out =>
        rw [hr] at h
        cases h
        simp [clearAllNodes_length ext keep clears rest out hr]

/-- C5.  Writing N documents with the `json` format emits exactly one
JSON value: the `wrap`ped object whose `kind` field is the scalar
`List`, whose `apiVersion` field is the scalar `v1` and whose `items`
sequence holds the N (annotation-cleared) documents in input order. -/
theorem c5_json_wrapping (ext : Ext) (keep : Bool) (clears : List String) (rv : Bool)
    (nodes cleared : List YNode)
    (hclr : clearAllNodes ext keep clears nodes = .ok cleared) :
    cleared.length = nodes.length ∧
    writerWrite ext ⟨"json", keep, clears, false, rv⟩ nodes =
      .ok (.jsonOut [wrap "v1" "List" cleared]) ∧
    docField (wrap "v1" "List" cleared) "kind" = some (scalar "List") ∧
    docField (wrap "v1" "List" cleared) "apiVersion" = some (scalar "v1") ∧
    (docField (wrap "v1" "List" cleared) "items").map YNode.content = some cleared := by
  have hjw : jsonWrite ext ⟨keep, clears, "List", "v1", false⟩ nodes =
      .ok [wrap "v1" "List" cleared] := by
    show ((match clearAllNodes ext keep clears nodes with
          | .error e => .error e
          | .ok ns => if ("List" : String) = "" then .ok ns
                      else .ok [wrap "v1" "List" ns]) : Except String (List YNode)) =
        .ok [wrap "v1" "List" cleared]
    rw [hclr]
    rfl
  refine ⟨clearAllNodes_length ext keep clears nodes cleared hclr, ?_, rfl, rfl, rfl⟩
  show ((match jsonWrite ext ⟨keep, clears, "List", "v1", false⟩ nodes with
        | .error e => .error e
        | .ok vs => .ok (.jsonOut vs)) : Except String WOutput) =
      .ok (.jsonOut [wrap "v1" "List" cleared])
  rw [hjw]

def c5WitNodes : List YNode := [scalar "a", scalar "b", scalar "c"]

theorem c5_json_wrapping_witness :
    clearAllNodes extDefault false [] c5WitNodes = .ok c5WitNodes ∧
    c5WitNodes.length = c5WitNodes.length ∧
    writerWrite extDefault ⟨"json", false, [], false, false⟩ c5WitNodes =
      .ok (.jsonOut [wrap "v1" "List" c5WitNodes]) ∧
    docField (wrap "v1" "List" c5WitNodes) "kind" = some (scalar "List") ∧
    docField (wrap "v1" "List" c5WitNodes) "apiVersion" = some (scalar "v1") ∧
    (docField (wrap "v1" "List" c5WitNodes) "items").map YNode.content = some c5WitNodes :=
  ⟨rfl, c5_json_wrapping extDefault false [] false c5WitNodes c5WitNodes rfl⟩

/-! ## Claim C6: unrecognized formats -/

/-- C6.  Whenever the dispatched name of the format specifier (the
part before the first `=`, lowercased, with a brace-bearing specifier
treated as `template`) is none of the recognized formats, the
dispatching writer returns the fatal error naming the offending
specifier verbatim, and produces no output. -/
theorem c6_unknown_format (ext : Ext) (cfg : WriterCfg) (nodes : List YNode)
    (h : (dispatchFormat cfg.format).1 ∉ recognizedFormats) :
    writerWrite ext cfg nodes = .error ("unknown format: " ++ cfg.format) := by
  simp only [recognizedFormats, List.mem_cons, List.not_mem_nil, or_false,
    not_or] at h
  obtain ⟨h1, h2, h3, h4, h5, h6, h7, h8, h9, h10⟩ := h
  simp only [writerWrite]
  rw [if_neg (not_or.mpr ⟨h1, h2⟩), if_neg h3, if_neg h4, if_neg h5, if_neg h6,
    if_neg (not_or.mpr ⟨h7, h8⟩), if_neg (not_or.mpr ⟨h9, h10⟩)]

theorem c6_unknown_format_witness :
    ((dispatchFormat "xml").1 ∉ recognizedFormats) ∧
    writerWrite extDefault ⟨"xml", false, [], false, false⟩ [] =
      .error ("unknown format: " ++ "xml") :=
  ⟨by decide,
    c6_unknown_format extDefault ⟨"xml", false, [], false, false⟩ [] (by decide)⟩

/-! ## Claim C8: command reader error wrapping -/

/-- C8 (counterexample).  A failed invocation whose error is not an
`exec.ExitError` (for instance a start failure such as a missing
binary) is returned raw: the result is exactly the original error and
its text does not name the invoked program — refuting the claim that
every failed invocation yields a wrapped error and that the raw
process error is never returned alone. -/
theorem c8_raw_error_counterexample :
    commandRead "/bin/foo" (.error (.plain "boom")) (fun _ => .ok []) =
      .error (.plain "boom") ∧
    containsSub "boom" (goBase "/bin/foo") = false :=
  ⟨rfl, by decide⟩

/-- C8 (amended).  For every invocation that fails with a process
*exit* error, the returned error message is the invoked program's base
name, the exit error text and the stderr stream trimmed of whitespace
and stripped of a leading `Error: ` prefix — and it is never the raw
process error. -/
theorem c8_exit_error_wrapped (path em stderr : String)
    (fromBytes : String → Except GoErr (List YNode)) :
    commandRead path (.error (.exitErr em stderr)) fromBytes =
      .error (.plain (goBase path ++ " " ++ em ++ ": " ++
        goTrimPrefixStr "Error: " (goTrimSpace stderr))) ∧
    commandRead path (.error (.exitErr em stderr)) fromBytes ≠
      .error (.exitErr em stderr) := by
  refine ⟨rfl, ?_⟩
  intro hc
  simp only [commandRead, Except.error.injEq] at hc
  cases hc

/-! ## Claim C9: vertical whitespace restoration -/

theorem line_withHead (n : YNode) (h : String) : (n.withHead h).line = n.line := by
  cases n; rfl

theorem headComment_withHead (n : YNode) (h : String) : (n.withHead h).headComment = h := by
  cases n; rfl

theorem footComment_withHead (n : YNode) (h : String) :
    (n.withHead h).footComment = n.footComment := by
  cases n; rfl

theorem lastLine_withHead (n : YNode) (h : String) : lastLine (n.withHead h) = lastLine n := by
  cases n; rfl

theorem withHead_self (n : YNode) : n.withHead n.headComment = n := by
  cases n; rfl

/-- The sequential gap computation of the source (subtract the head
comment, then the running maximum, then the foot comment, each behind
its own emptiness test) equals the one closed formula of the claim. -/
theorem gap_arith (A M : Int) (hc fc : String) :
    (if fc.length > 0 then
      ((if hc.length > 0 then A - 1 - ((countNl hc : Int) + 1) else A - 1) - M) -
        ((countNl fc : Int) + 2)
     else ((if hc.length > 0 then A - 1 - ((countNl hc : Int) + 1) else A - 1) - M))
    = A - 1 - (if hc.length > 0 then (countNl hc : Int) + 1 else 0) - M -
      (if fc.length > 0 then (countNl fc : Int) + 2 else 0) := by
  split_ifs <;> omega

/-- State relation of the two traversals: the source walks the
already-rewritten previous siblings, the claim-side walk the original
ones; they agree on everything except the head comment. -/
def optHeadRel : Option YNode → Option YNode → Prop
  | none, none => True
  | some x, some c => ∃ h, x = c.withHead h
  | _, _ => False

theorem vwsLoop_eq_specLoop (kind : YKind) :
    ∀ (cs : List YNode) (minLL : Int) (ppO pO pp p : Option YNode),
      optHeadRel pp ppO → optHeadRel p pO →
      vwsLoop kind minLL pp p cs = specLoop kind minLL ppO pO cs
  | [], _, _, _, pp, p, _, _ => by
    simp only [vwsLoop, specLoop]
  | c :: rest, minLL, ppO, pO, pp, p, hpp, hp => by
    cases p with
    | none =>
      cases pO with
      | some _ => exact absurd hp (by simp [optHeadRel])
      | none =>
        show c :: vwsLoop kind minLL none (some c) rest =
          c :: specLoop kind minLL none (some c) rest
        congr 1
        exact vwsLoop_eq_specLoop kind rest minLL none (some c) none (some c) trivial
          ⟨c.headComment, (withHead_self c).symm⟩
    | some x =>
      cases pO with
      | none => exact absurd hp (by simp [optHeadRel])
      | some prevO =>
        obtain ⟨h, rfl⟩ := hp
        cases pp with
        | none =>
          cases ppO with
          | some _ => exact absurd hpp (by simp [optHeadRel])
          | none =>
            simp only [vwsLoop, specLoop, line_withHead, footComment_withHead,
              lastLine_withHead]
            by_cases hline : c.line = prevO.line
            · rw [if_pos hline, if_pos hline]
              congr 1
              exact vwsLoop_eq_specLoop kind rest minLL (some prevO) (some c)
                (some (prevO.withHead h)) (some c) ⟨h, rfl⟩
                ⟨c.headComment, (withHead_self c).symm⟩
            · rw [if_neg hline, if_neg hline]
              rw [gap_arith c.line (max minLL (lastLine prevO)) c.headComment
                (if prevO.footComment = "" ∧ kind = YKind.mappingNode then ""
                 else prevO.footComment)]
              simp only [specGapNoPP, specHeadLines, specFootLines, specFootCmt]
              by_cases hgap : c.line - 1 -
                  (if c.headComment.length > 0 then (countNl c.headComment : Int) + 1 else 0) -
                  max minLL (lastLine prevO) -
                  (if (if prevO.footComment = "" ∧ kind = YKind.mappingNode then ""
                      else prevO.footComment).length > 0 then
                    (countNl (if prevO.footComment = "" ∧ kind = YKind.mappingNode then ""
                      else prevO.footComment) : Int) + 2 else 0) ≤ 0
              · rw [if_pos hgap, if_pos hgap]
                congr 1
                exact vwsLoop_eq_specLoop kind rest (max minLL (lastLine prevO)) (some prevO)
                  (some c) (some (prevO.withHead h)) (some c) ⟨h, rfl⟩
                  ⟨c.headComment, (withHead_self c).symm⟩
              · rw [if_neg hgap, if_neg hgap]
                congr 1
                exact vwsLoop_eq_specLoop kind rest (max minLL (lastLine prevO)) (some prevO)
                  (some c) (some (prevO.withHead h)) _ ⟨h, rfl⟩ ⟨_, rfl⟩
        | some q =>
          cases ppO with
          | none => exact absurd hpp (by simp [optHeadRel])
          | some qO =>
            obtain ⟨h', rfl⟩ := hpp
            simp only [vwsLoop, specLoop, line_withHead, footComment_withHead,
              lastLine_withHead]
            by_cases hline : c.line = prevO.line
            · rw [if_pos hline, if_pos hline]
              congr 1
              exact vwsLoop_eq_specLoop kind rest minLL (some prevO) (some c)
                (some (prevO.withHead h)) (some c) ⟨h, rfl⟩
                ⟨c.headComment, (withHead_self c).symm⟩
            · rw [if_neg hline, if_neg hline]
              rw [gap_arith c.line (max minLL (lastLine prevO)) c.headComment
                (if prevO.footComment = "" ∧ kind = YKind.mappingNode then qO.footComment
                 else prevO.footComment)]
              simp only [specGap, specHeadLines, specFootLines, specFootCmt]
              by_cases hgap : c.line - 1 -
                  (if c.headComment.length > 0 then (countNl c.headComment : Int) + 1 else 0) -
                  max minLL (lastLine prevO) -
                  (if (if prevO.footComment = "" ∧ kind = YKind.mappingNode then qO.footComment
                      else prevO.footComment).length > 0 then
                    (countNl (if prevO.footComment = "" ∧ kind = YKind.mappingNode then
                      qO.footComment else prevO.footComment) : Int) + 2 else 0) ≤ 0
              · rw [if_pos hgap, if_pos hgap]
                congr 1
                exact vwsLoop_eq_specLoop kind rest (max minLL (lastLine prevO)) (some prevO)
                  (some c) (some (prevO.withHead h)) (some c) ⟨h, rfl⟩
                  ⟨c.headComment, (withHead_self c).symm⟩
              · rw [if_neg hgap, if_neg hgap]
                congr 1
                exact vwsLoop_eq_specLoop kind rest (max minLL (lastLine prevO)) (some prevO)
                  (some c) (some (prevO.withHead h)) _ ⟨h, rfl⟩ ⟨_, rfl⟩

theorem specLoop_shape (kind : YKind) :
    ∀ (cs : List YNode) (minLL : Int) (ppO pO : Option YNode),
      (specLoop kind minLL ppO pO cs).length = cs.length ∧
      ∀ i, ((specLoop kind minLL ppO pO cs).getD i (scalar "")) =
        ((cs.getD i (scalar "")).withHead
          (((specLoop kind minLL ppO pO cs).getD i (scalar "")).headComment))
  | [], minLL, ppO, pO => by
    simp only [specLoop]
    exact ⟨trivial, fun i => (withHead_self _).symm⟩
  | c :: rest, minLL, ppO, pO => by
    cases pO with
    | none =>
      simp only [specLoop]
      obtain ⟨ihl, ihe⟩ := specLoop_shape kind rest minLL none (some c)
      refine ⟨by simp [ihl], fun i => ?_⟩
      cases i with
      | zero => exact (withHead_self c).symm
      | succ i => exact ihe i
    | some prevO =>
      simp only [specLoop]
      by_cases hline : c.line = prevO.line
      · rw [if_pos hline]
        obtain ⟨ihl, ihe⟩ := specLoop_shape kind rest minLL (some prevO) (some c)
        refine ⟨by simp [ihl], fun i => ?_⟩
        cases i with
        | zero => exact (withHead_self c).symm
        | succ i => exact ihe i
      · rw [if_neg hline]
        obtain ⟨ihl, ihe⟩ :=
          specLoop_shape kind rest (max minLL (lastLine prevO)) (some prevO) (some c)
        refine ⟨by simp [ihl], fun i => ?_⟩
        cases i with
        | zero =>
          simp only [List.getD_cons_zero]
          split
          · exact (withHead_self c).symm
          · rw [headComment_withHead]
        | succ i => exact ihe i

/-- C9.  The source whitespace restorer is exactly the claim-side
description: per document, only the direct children's head comments
are rewritten (the output children agree with the originals on kind,
value, foot comment, line and nested content — third conjunct), and
each child either keeps its head comment or has the closed-formula
gap (source line minus one, minus its own head comment lines, minus
the running maximum of lines claimed by the previous siblings' deepest
source lines, minus the applicable trailing foot comment lines)
prefixed as blank lines exactly when that gap is positive (first
conjunct, by definition of `specLoop`/`specGap`). -/
theorem c9_whitespace_restoration (n : YNode) :
    restoreVWSNode n = specRestoreNode n ∧
    (restoreVWSNode n).content.length = n.content.length ∧
    ∀ i, ((restoreVWSNode n).content.getD i (scalar "")) =
      ((n.content.getD i (scalar "")).withHead
        (((restoreVWSNode n).content.getD i (scalar "")).headComment)) := by
  have hmain : restoreVWSNode n = specRestoreNode n := by
    unfold restoreVWSNode specRestoreNode
    congr 1
    exact vwsLoop_eq_specLoop n.kind n.content n.line none none none none trivial trivial
  obtain ⟨hl, he⟩ := specLoop_shape n.kind n.content n.line none none
  rw [hmain]
  exact ⟨rfl, hl, he⟩

end Konjure
